import Mathlib

/-!
Verification of the URL State Synchronizer (`src/lib/storage/modern.js`,
class `ModernURL`).

The JavaScript class keeps an application UI state in sync with the
browser address bar: `read` parses the current query string, `write`
debounces a `history.pushState`, `onUpdate` installs a `popstate`
listener, `createURL` builds the full address for a state, and `dispose`
tears everything down.

The embedding below models:
  * the UI state values (`UIValue` / `Fields` / `Items`): nested string
    keyed mappings with string and integer leaves, and arrays — the
    shapes the specification declares supported;
  * the `qs` serialization library.  `qs` is an external dependency that
    is not part of this repository's sources, so `qsStringify` and
    `qsParse` are modelled from the specification's contract (section 6):
    a URL safe, internally consistent, reversible encoding of the
    supported shapes, with graceful degradation to the empty mapping on
    unparseable input;
  * the browser (`window`): location, history stack, document title,
    active timeouts (`setTimeout` / `clearTimeout` with numeric ids) and
    the popstate listener registration;
  * the `ModernURL` methods themselves, as functions on that world
    state, driven by an event step relation (`step` / `run`).
-/

namespace URLSync

/-! ## UI State shapes

The supported UI State shapes: mappings from string keys to leaves
(strings, numbers), nested mappings, and arrays.  `Fields` is a mapping
(ordered key/value list, as JavaScript objects are for string keys) and
`Items` an array. -/

mutual
inductive UIValue : Type where
  | str : String → UIValue
  | num : Int → UIValue
  | obj : Fields → UIValue
  | arr : Items → UIValue
  deriving DecidableEq
inductive Fields : Type where
  | nil : Fields
  | cons : String → UIValue → Fields → Fields
  deriving DecidableEq
inductive Items : Type where
  | nil : Items
  | cons : UIValue → Items → Items
  deriving DecidableEq
end

-- Size of a value (constructors plus string lengths); fuel bound for
-- the decoder.
mutual
def sizeV : UIValue → Nat
  | .str s => s.data.length + 1
  | .num _ => 1
  | .obj fs => sizeF fs + 1
  | .arr is => sizeI is + 1
def sizeF : Fields → Nat
  | .nil => 1
  | .cons k v fs => k.data.length + sizeV v + sizeF fs + 1
def sizeI : Items → Nat
  | .nil => 1
  | .cons v is => sizeV v + sizeI is + 1
end

/-- Keys of a mapping, in order; models JavaScript `Object.keys` on the
objects used as UI states. -/
def fieldsKeys : Fields → List String
  | .nil => []
  | .cons k _ fs => k :: fieldsKeys fs

/-! ## Serialization (modelled from the spec)

Modelled from the spec: the `qs` library (`qs.stringify` / `qs.parse`)
is imported by `modern.js` but its code is not part of this repository.
Section 6 of the specification pins down only its contract: a URL safe
encoding of nested objects and arrays that is reversible
(`parse(stringify(x))` equivalent to `x` for all supported shapes) and
internally consistent between `read` and `createURL`; the exact bracket
and escaping convention is an implementation choice.  The encoding
below realises that contract with a tagged grammar in which every
string leaf and key is escaped character by character (each character
becomes its code point in decimal followed by a dot), so that the whole
serialization uses only the alphabet digits, `.`, `:`, `;`, `-` and the
tag letters — all unreserved or sub-delimiter characters of a URL query,
and in particular never `#` or `?` (`encVal_safe` below):

  value  := 's' text                 (string leaf)
          | 'n' sign? digits ';'     (integer leaf)
          | 'o' field* 'e'           (nested mapping)
          | 'a' item* 'e'            (array)
  field  := 'f' text value           (key, then value)
  item   := 'i' value
  text   := (digits '.')* ':'        (one code point per dot group)

The top level query string is the encoding of the whole mapping as one
`'o' ... 'e'` value. -/

/-- Decimal digits of `n`, most significant first (empty for 0). -/
def encNat (n : Nat) : List Char := (Nat.digits 10 n).reverse.map Nat.digitChar

/-- Integer encoding: optional leading minus sign, then decimal digits. -/
def encInt : Int → List Char
  | .ofNat n => encNat n
  | .negSucc n => '-' :: encNat (n + 1)

/-- Escaped text body: each character as its code point in decimal,
terminated by a dot.  Only digits and dots appear, whatever the
characters are — this is the escaping layer that keeps the query
URL-safe. -/
def encChars : List Char → List Char
  | [] => []
  | c :: cs => encNat c.toNat ++ '.' :: encChars cs

/-- Escaped string encoding: the escaped text body, closed by a colon. -/
def encStr (s : String) : List Char := encChars s.data ++ [':']

mutual
def encVal : UIValue → List Char
  | .str s => 's' :: encStr s
  | .num n => 'n' :: (encInt n ++ [';'])
  | .obj fs => 'o' :: encFields fs
  | .arr is => 'a' :: encItems is
def encFields : Fields → List Char
  | .nil => ['e']
  | .cons k v fs => 'f' :: (encStr k ++ encVal v ++ encFields fs)
def encItems : Items → List Char
  | .nil => ['e']
  | .cons v is => 'i' :: (encVal v ++ encItems is)
end

/-- Decimal digit test on a character. -/
def isDig (c : Char) : Bool := 48 ≤ c.toNat && c.toNat ≤ 57

/-- The alphabet of the serialization: decimal digits plus the
delimiters and tags of the grammar.  Every character is an unreserved
or sub-delimiter character of a URL query component; in particular
neither '#' nor '?' nor a space belongs to it, so a serialized state
never disturbs the query/fragment decomposition of the address. -/
def urlQuerySafe (c : Char) : Bool :=
  isDig c || c == '.' || c == ':' || c == ';' || c == '-' ||
    c == 's' || c == 'n' || c == 'o' || c == 'a' || c == 'f' || c == 'i' || c == 'e'

/-- Greedy decimal number scanner: consumes leading digits, returns the
accumulated value and the rest of the input. -/
def decNatAux : List Char → Nat → Nat × List Char
  | c :: rest, acc =>
    if isDig c then decNatAux rest (acc * 10 + (c.toNat - 48)) else (acc, c :: rest)
  | [], acc => (acc, [])

/-- Escaped text decoder, fuel bounded by the number of characters:
reads dot-terminated decimal code points until the closing colon. -/
def decChars : Nat → List Char → Option (List Char × List Char)
  | _, [] => none
  | 0, c :: rest => if c = ':' then some ([], rest) else none
  | fuel + 1, c :: rest =>
    if c = ':' then some ([], rest)
    else
      match decNatAux (c :: rest) 0 with
      | (n, '.' :: r2) =>
        (decChars fuel r2).map (fun p => (Char.ofNat n :: p.1, p.2))
      | _ => none

/-- Escaped string decoder. -/
def decStr (fuel : Nat) (l : List Char) : Option (String × List Char) :=
  (decChars fuel l).map (fun p => (String.mk p.1, p.2))

/-- Integer body decoder: optional minus sign, digits, terminating
semicolon. -/
def decIntBody (l : List Char) : Option (Int × List Char) :=
  if l.head? = some '-' then
    match decNatAux (l.drop 1) 0 with
    | (n, ';' :: r3) => some (-(n : Int), r3)
    | _ => none
  else
    match decNatAux l 0 with
    | (n, ';' :: r3) => some ((n : Int), r3)
    | _ => none

-- Tagged value decoder, fuel bounded: returns the decoded value and
-- the unconsumed remainder, or none on ill-formed input.
mutual
def decVal : Nat → List Char → Option (UIValue × List Char)
  | 0, _ => none
  | fuel + 1, 's' :: rest => (decStr fuel rest).map (fun p => (.str p.1, p.2))
  | _ + 1, 'n' :: rest => (decIntBody rest).map (fun p => (.num p.1, p.2))
  | fuel + 1, 'o' :: rest => (decFields fuel rest).map (fun p => (.obj p.1, p.2))
  | fuel + 1, 'a' :: rest => (decItems fuel rest).map (fun p => (.arr p.1, p.2))
  | _ + 1, _ => none
def decFields : Nat → List Char → Option (Fields × List Char)
  | 0, _ => none
  | _ + 1, 'e' :: rest => some (.nil, rest)
  | fuel + 1, 'f' :: rest => do
    let p1 ← decStr fuel rest
    let p2 ← decVal fuel p1.2
    let p3 ← decFields fuel p2.2
    some (.cons p1.1 p2.1 p3.1, p3.2)
  | _ + 1, _ => none
def decItems : Nat → List Char → Option (Items × List Char)
  | 0, _ => none
  | _ + 1, 'e' :: rest => some (.nil, rest)
  | fuel + 1, 'i' :: rest => do
    let p1 ← decVal fuel rest
    let p2 ← decItems fuel p1.2
    some (.cons p1.1 p2.1, p2.2)
  | _ + 1, _ => none
end

/-- Modelled from the spec: `qs.stringify` on a UI state mapping. -/
def qsStringify (fs : Fields) : String := String.mk (encVal (.obj fs))

/-- Modelled from the spec: `qs.stringify` as called by `createURL`,
where the argument may be `undefined` (`qs.stringify(undefined)` is the
empty string). -/
def qsStringifyOpt : Option Fields → String
  | none => ""
  | some fs => qsStringify fs

/-- Top level decoder: the whole input must be a single mapping value
with nothing left over. -/
def decodeTop (l : List Char) : Option Fields :=
  match decVal (l.length + 1) l with
  | some (.obj fs, []) => some fs
  | _ => none

/-- Modelled from the spec: `qs.parse`.  Unparseable, absent or empty
input degrades silently to the empty mapping. -/
def qsParse (s : String) : Fields := (decodeTop s.data).getD .nil

/-! ## The browser location -/

/-- The components of `window.location` used by `modern.js`:
`protocol` (with trailing colon, e.g. "https:"), `hostname`, `port`,
`pathname`, `search` (with leading question mark when non-empty) and
`hash` (with leading number sign when non-empty). -/
structure Location : Type where
  protocol : String
  hostname : String
  port : String
  pathname : String
  search : String
  hash : String
  deriving DecidableEq

/-- Modelled from the spec: the full address a location denotes,
`scheme://host[:port]/path?query#fragment` (section 8's address
decomposition; this is the browser's `href` composition rule). -/
def renderLocation (loc : Location) : String :=
  loc.protocol ++ "//" ++ loc.hostname ++
    (if loc.port = "" then "" else ":" ++ loc.port) ++
    loc.pathname ++ loc.search ++ loc.hash

/-- JavaScript `String.prototype.slice(1)`: drop the first character. -/
def jsSlice1 (s : String) : String := String.mk (s.data.drop 1)

/-- Modelled from the spec: the browser's decomposition of an address
string into components (glossary: "Address / location ... decomposed
into scheme, host, port, path, query, fragment").  The fragment starts
at the first number sign of the address; the search component is the
part of the pre-fragment address from its first question mark
(inclusive), and empty when there is none. -/
def searchPart (l : List Char) : List Char :=
  (l.takeWhile (fun c => c ≠ '#')).dropWhile (fun c => c ≠ '?')

/-- The `location.search` the browser shows for a given address
string. -/
def browserSearch (url : String) : String := String.mk (searchPart url.data)

/-! ## The ModernURL methods -/

/-- Embeds `ModernURL.read`:
`return qs.parse(window.location.search.slice(1));` -/
def ModernURL.read (loc : Location) : Fields := qsParse (jsSlice1 loc.search)

/-- Embeds `ModernURL.createURL`.  The source:
```
const queryString = qs.stringify(uiState);
const portWithPrefix = port === '' ? '' : `:port`;
if (!uiState || Object.keys(uiState).length === 0)
  return `protocol//hostnameportWithPrefixpathnamehash`;
else
  return `protocol//hostnameportWithPrefixpathname?queryStringhash`;
```
The argument is `Option Fields` because `dispose` calls `write()` with
no argument, so `uiState` may be `undefined` (`none`); `!uiState` is
true exactly on `none` (every object is truthy). -/
def ModernURL.createURL (loc : Location) (uiState : Option Fields) : String :=
  let queryString := qsStringifyOpt uiState
  let portWithPfx := if loc.port = "" then "" else ":" ++ loc.port
  match uiState with
  | none =>
    loc.protocol ++ "//" ++ loc.hostname ++ portWithPfx ++ loc.pathname ++ loc.hash
  | some fs =>
    if (fieldsKeys fs).length = 0 then
      loc.protocol ++ "//" ++ loc.hostname ++ portWithPfx ++ loc.pathname ++ loc.hash
    else
      loc.protocol ++ "//" ++ loc.hostname ++ portWithPfx ++ loc.pathname ++
        "?" ++ queryString ++ loc.hash

/-- JavaScript `Object.keys`, with the error it raises on `undefined`
made explicit: `Object.keys(undefined)` throws a `TypeError`. -/
def objectKeysE : Option Fields → Except String (List String)
  | none => .error "TypeError: cannot convert undefined or null to object"
  | some fs => .ok (fieldsKeys fs)

/-- Embeds `ModernURL.createURL` again, instrumented with the
evaluation order of the guard `!uiState || Object.keys(uiState).length
=== 0`: the disjunction short-circuits, so `Object.keys` is evaluated
only when `uiState` is truthy.  An `.error` result marks the uncaught
`TypeError` that `Object.keys(undefined)` would raise. -/
def ModernURL.createURLE (loc : Location) (uiState : Option Fields) :
    Except String String :=
  let queryString := qsStringifyOpt uiState
  let portWithPfx := if loc.port = "" then "" else ":" ++ loc.port
  do
    let emptyGuard ←
      if uiState.isNone then pure true
      else do
        let ks ← objectKeysE uiState
        pure (ks.length == 0)
    if emptyGuard then
      pure (loc.protocol ++ "//" ++ loc.hostname ++ portWithPfx ++ loc.pathname ++ loc.hash)
    else
      pure (loc.protocol ++ "//" ++ loc.hostname ++ portWithPfx ++ loc.pathname ++
        "?" ++ queryString ++ loc.hash)

/-- Modelled from the spec: the location the browser shows after
navigating to `createURL loc uiState` — same components, with the
search component replaced by the serialized state (empty for an empty
or absent state).  This is justified against the browser's address
decomposition (`browserSearch`): the serialization alphabet contains
neither '#' nor '?' (`encVal_safe`), so for a well-formed location the
search component the browser derives from the pushed address string is
provably exactly the one assigned here — the round-trip claim below
proves that agreement under explicit side conditions. -/
def createURLLoc (loc : Location) (uiState : Option Fields) : Location :=
  match uiState with
  | none => { loc with search := "" }
  | some fs =>
    if (fieldsKeys fs).length = 0 then { loc with search := "" }
    else { loc with search := "?" ++ qsStringifyOpt uiState }

/-! ## The browser world and the event model

A `World` bundles the browser global state (location, history stack,
document title, the set of live timeouts, the popstate listener flag)
with the fields of one `ModernURL` instance (`writeTimer`,
`titleFromUIState`, `writeTimeout`) and a log of the invocations of the
callback registered through `onUpdate` (`cbCalls`).

Timeouts are modelled at the environment level, as JavaScript provides
them: `setTimeout` registers a pending action under a fresh numeric id,
`clearTimeout` removes it by id, and a timer can fire only while it is
still registered.  The payload a write timer would execute is recorded
as a `Pending`. -/

/-- What a scheduled write will do when it fires: the closure captured
by the `setTimeout` callback in `ModernURL.write` (`uiState`, `title`,
`url`), plus the location the pushed url denotes. -/
structure Pending : Type where
  uiState : Option Fields
  title : Option String
  url : String
  newLocation : Location

/-- One record of the browser history stack, as `pushState` creates it:
the state payload, the title argument and the address. -/
structure HistoryEntry : Type where
  state : Option Fields
  title : String
  url : String

/-- The browser global state plus one `ModernURL` instance. -/
structure World : Type where
  location : Location
  historyStack : List HistoryEntry
  docTitle : String
  activeTimers : List (Nat × Pending)
  nextTimerId : Nat
  listenerRegistered : Bool
  cbCalls : List Fields
  writeTimer : Option Nat
  titleFromUIState : Option (Option Fields → String)
  writeTimeout : Nat

/-- JavaScript truthiness of the `title` value in `write`: `undefined`
and the empty string are falsy, every other string truthy. -/
def titleTruthy : Option String → Bool
  | none => false
  | some t => t != ""

/-- The timers left registered after `if (this.writeTimer)
window.clearTimeout(this.writeTimer)`: when the instance tracks a timer
id, that id is deregistered; otherwise nothing changes. -/
def clearedTimers (w : World) : List (Nat × Pending) :=
  match w.writeTimer with
  | some id => w.activeTimers.filter (fun t => t.1 ≠ id)
  | none => w.activeTimers

/-- The pending action `write` schedules from world `w` for state
`uiState`: the data captured by its `setTimeout` closure — the state,
the computed title (`this.titleFromUIState &&
this.titleFromUIState(uiState)`, `none` when no transform is
configured), the computed url, and the location that url denotes. -/
def pendingFor (w : World) (uiState : Option Fields) : Pending :=
  ⟨uiState, w.titleFromUIState.map (fun f => f uiState),
    ModernURL.createURL w.location uiState, createURLLoc w.location uiState⟩

/-- Embeds `ModernURL.write`.  The source: compute `url` and `title`,
clear any truthy `this.writeTimer`, then `setTimeout` the push under a
fresh id and store that id in `this.writeTimer`. -/
def ModernURL.write (w : World) (uiState : Option Fields) : World :=
  { w with
      activeTimers := clearedTimers w ++ [(w.nextTimerId, pendingFor w uiState)],
      nextTimerId := w.nextTimerId + 1,
      writeTimer := some w.nextTimerId }

/-- The body of the `setTimeout` callback in `ModernURL.write`, run by
the environment when a still-registered timer elapses: `if (title)
document.title = title; window.history.pushState(uiState, title || '',
url); this.writeTimer = undefined;` — and the browser moves the
location to the pushed address.  Firing an id that is no longer
registered does nothing (a cleared timeout never runs). -/
def fireTimer (w : World) (id : Nat) : World :=
  match w.activeTimers.find? (fun t => t.1 = id) with
  | none => w
  | some tp =>
    { w with
        activeTimers := w.activeTimers.filter (fun t => t.1 ≠ id),
        docTitle := if titleTruthy tp.2.title then tp.2.title.getD "" else w.docTitle,
        historyStack := w.historyStack ++ [⟨tp.2.uiState, tp.2.title.getD "", tp.2.url⟩],
        location := tp.2.newLocation,
        writeTimer := none }

/-- Embeds the `_onPopState` handler installed by `ModernURL.onUpdate`:
clear any pending write (`if (this.writeTimer) { clearTimeout(...);
this.writeTimer = undefined; }`), then call the callback with the event
state, falling back to `read()` when the event carries none.  The
callback invocation is logged in `cbCalls`. -/
def handlePopState (w : World) (eventState : Option Fields) : World :=
  let w1 := { w with activeTimers := clearedTimers w, writeTimer := none }
  match eventState with
  | none => { w1 with cbCalls := w1.cbCalls ++ [ModernURL.read w1.location] }
  | some s => { w1 with cbCalls := w1.cbCalls ++ [s] }

/-- A browser popstate event: the browser first moves `location` to the
target entry's address, then runs the registered listener (if any) with
the entry's state payload. -/
def popstateEvent (w : World) (newLoc : Location) (eventState : Option Fields) : World :=
  let w1 := { w with location := newLoc }
  if w.listenerRegistered then handlePopState w1 eventState else w1

/-- Embeds `ModernURL.onUpdate`: `window.addEventListener('popstate',
this._onPopState)`. -/
def onUpdate (w : World) : World := { w with listenerRegistered := true }

/-- Embeds `ModernURL.dispose`: remove the listener, clear any truthy
pending timer (without resetting `this.writeTimer`, as in the source),
then `this.write()` — a write with no argument. -/
def ModernURL.dispose (w : World) : World :=
  ModernURL.write
    { w with listenerRegistered := false, activeTimers := clearedTimers w } none

/-- The observable events of one synchronizer's life: the application
calls (`write`, `subscribe` for `onUpdate`, `dispose`) and the
environment steps (a registered timeout elapsing, a popstate
navigation). -/
inductive Event : Type where
  | write : Fields → Event
  | fire : Nat → Event
  | popstate : Location → Option Fields → Event
  | subscribe : Event
  | dispose : Event

/-- One step of the world under an event. -/
def step (w : World) : Event → World
  | .write s => ModernURL.write w (some s)
  | .fire id => fireTimer w id
  | .popstate l p => popstateEvent w l p
  | .subscribe => onUpdate w
  | .dispose => ModernURL.dispose w

/-- Run a sequence of events. -/
def run (w : World) (es : List Event) : World := es.foldl step w

/-- The single-pending-write invariant: every registered timer id is
below the fresh-id counter, and the instance's `writeTimer` field
mirrors the registered timers — when it names an id, exactly that one
timer is registered, and when it is empty, none is. -/
def TimerInv (w : World) : Prop :=
  (∀ t ∈ w.activeTimers, t.1 < w.nextTimerId) ∧
  (∀ id, w.writeTimer = some id → ∃ p, w.activeTimers = [(id, p)]) ∧
  (w.writeTimer = none → w.activeTimers = [])

/-- Environment-driven events: what can still happen after the
application has released the synchronizer (navigation and timer
expiry, as opposed to application calls). -/
def NavEvent : Event → Prop
  | .fire _ => True
  | .popstate _ _ => True
  | _ => False

/-! ## Round-trip of the serialization

`qsParse (qsStringify fs) = fs` on every supported shape, built up from
the digit scanner through the netstring and integer decoders to the
mutual value decoder (by induction on the decoder fuel). -/

theorem mk_data (s : String) : String.mk s.data = s := by cases s; rfl

theorem isDig_digitChar {d : Nat} (h : d < 10) : isDig (Nat.digitChar d) = true := by
  interval_cases d <;> decide

theorem toNat_digitChar {d : Nat} (h : d < 10) : (Nat.digitChar d).toNat - 48 = d := by
  interval_cases d <;> decide

theorem mem_encNat_isDig {m : Nat} {c : Char} (hc : c ∈ encNat m) : isDig c = true := by
  rcases List.mem_map.mp hc with ⟨d, hd, rfl⟩
  exact isDig_digitChar (Nat.digits_lt_base (by norm_num) (List.mem_reverse.mp hd))

theorem decNatAux_digits :
    ∀ (ds : List Nat) (acc : Nat) (rest : List Char),
      (∀ d ∈ ds, d < 10) → (∀ c ∈ rest.head?, isDig c = false) →
      decNatAux (ds.map Nat.digitChar ++ rest) acc
        = (ds.foldl (fun a d => a * 10 + d) acc, rest)
  | [], acc, rest, _, hrest => by
    cases rest with
    | nil => simp [decNatAux]
    | cons c cs =>
      have : isDig c = false := hrest c (by simp)
      simp [decNatAux, this]
  | d :: ds, acc, rest, hds, hrest => by
    have hd : d < 10 := hds d (by simp)
    have ih := decNatAux_digits ds (acc * 10 + d) rest
      (fun x hx => hds x (by simp [hx])) hrest
    simp [decNatAux, isDig_digitChar hd, toNat_digitChar hd, ih]

theorem foldr_ofDigits :
    ∀ L : List Nat, L.foldr (fun d a => a * 10 + d) 0 = Nat.ofDigits 10 L
  | [] => by simp [Nat.ofDigits]
  | d :: L => by
    rw [List.foldr_cons, foldr_ofDigits L, Nat.ofDigits_cons]
    ring

theorem decNatAux_encNat (n : Nat) (rest : List Char)
    (hrest : ∀ c ∈ rest.head?, isDig c = false) :
    decNatAux (encNat n ++ rest) 0 = (n, rest) := by
  have h := decNatAux_digits (Nat.digits 10 n).reverse 0 rest
    (fun d hd => Nat.digits_lt_base (by norm_num) (List.mem_reverse.mp hd)) hrest
  rw [encNat, h, List.foldl_reverse, foldr_ofDigits, Nat.ofDigits_digits]

theorem decChars_step (n : Nat) (f : Nat) (tail : List Char) :
    decChars (f + 1) (encNat n ++ '.' :: tail)
      = (decChars f tail).map (fun p => (Char.ofNat n :: p.1, p.2)) := by
  have hscan := decNatAux_encNat n ('.' :: tail)
    (by intro c hc; simp at hc; subst hc; decide)
  cases hm : encNat n with
  | nil =>
    rw [hm, List.nil_append] at hscan
    simp [decChars, hscan]
  | cons d ds =>
    have hd : isDig d = true := mem_encNat_isDig (by rw [hm]; simp)
    have hdne : ¬ d = ':' := by
      intro he
      rw [he] at hd
      exact absurd hd (by decide)
    rw [hm, List.cons_append] at hscan
    simp [decChars, hdne, hscan]

theorem decChars_encChars :
    ∀ (cs : List Char) (fuel : Nat) (rest : List Char), cs.length ≤ fuel →
      decChars fuel (encChars cs ++ ':' :: rest) = some (cs, rest)
  | [], fuel, rest, _ => by
    cases fuel <;> simp [encChars, decChars]
  | c :: cs, fuel, rest, h => by
    simp only [List.length_cons] at h
    obtain ⟨f, rfl⟩ : ∃ f, fuel = f + 1 := ⟨fuel - 1, by omega⟩
    have ih := decChars_encChars cs f rest (by omega)
    have e : encChars (c :: cs) ++ ':' :: rest
        = encNat c.toNat ++ '.' :: (encChars cs ++ ':' :: rest) := by
      simp [encChars]
    rw [e, decChars_step, ih]
    simp [Char.ofNat_toNat]

theorem decStr_encStr (s : String) (fuel : Nat) (rest : List Char)
    (h : s.data.length ≤ fuel) :
    decStr fuel (encStr s ++ rest) = some (s, rest) := by
  have e : encStr s ++ rest = encChars s.data ++ ':' :: rest := by
    simp [encStr]
  rw [decStr, e, decChars_encChars s.data fuel rest h]
  simp [mk_data]

theorem decIntBody_encInt (n : Int) (rest : List Char) :
    decIntBody (encInt n ++ (';' :: rest)) = some (n, rest) := by
  cases n with
  | ofNat m =>
    have hscan := decNatAux_encNat m (';' :: rest)
      (by intro c hc; simp at hc; subst hc; decide)
    have hhead : (encNat m ++ (';' :: rest)).head? ≠ some '-' := by
      cases hm : encNat m with
      | nil => simp
      | cons c cs =>
        have : isDig c = true := mem_encNat_isDig (by rw [hm]; simp)
        simp only [List.cons_append, List.head?_cons]
        intro hc
        injection hc with hc
        subst hc
        exact absurd this (by decide)
    rw [show encInt (Int.ofNat m) ++ (';' :: rest) = encNat m ++ (';' :: rest) from rfl,
      decIntBody, if_neg hhead, hscan]
    rfl
  | negSucc m =>
    have hscan := decNatAux_encNat (m + 1) (';' :: rest)
      (by intro c hc; simp at hc; subst hc; decide)
    have h : encInt (Int.negSucc m) ++ (';' :: rest)
        = '-' :: (encNat (m + 1) ++ (';' :: rest)) := by
      simp [encInt]
    rw [h, decIntBody]
    simp only [List.head?_cons, if_pos rfl, List.drop_succ_cons, List.drop_zero, hscan]
    rw [Int.negSucc_eq]
    norm_num

theorem sizeV_pos (v : UIValue) : 1 ≤ sizeV v := by
  cases v <;> simp [sizeV]

theorem sizeF_pos (fs : Fields) : 1 ≤ sizeF fs := by
  cases fs <;> simp [sizeF]

theorem sizeI_pos (is : Items) : 1 ≤ sizeI is := by
  cases is <;> simp [sizeI]

/-- The three decoder round-trip statements at one fuel value, proved
jointly by induction on the fuel. -/
def DecodeOK (fuel : Nat) : Prop :=
  (∀ v rest, sizeV v ≤ fuel → decVal fuel (encVal v ++ rest) = some (v, rest)) ∧
  (∀ fs rest, sizeF fs ≤ fuel → decFields fuel (encFields fs ++ rest) = some (fs, rest)) ∧
  (∀ is rest, sizeI is ≤ fuel → decItems fuel (encItems is ++ rest) = some (is, rest))

theorem decodeOK : ∀ fuel, DecodeOK fuel := by
  intro fuel
  induction fuel with
  | zero =>
    refine ⟨fun v _ h => ?_, fun fs _ h => ?_, fun is _ h => ?_⟩
    · exact absurd h (by have := sizeV_pos v; omega)
    · exact absurd h (by have := sizeF_pos fs; omega)
    · exact absurd h (by have := sizeI_pos is; omega)
  | succ fuel ih =>
    obtain ⟨ihV, ihF, ihI⟩ := ih
    refine ⟨fun v rest h => ?_, fun fs rest h => ?_, fun is rest h => ?_⟩
    · cases v with
      | str s =>
        simp only [sizeV] at h
        have e : encVal (.str s) ++ rest = 's' :: (encStr s ++ rest) := by
          simp [encVal]
        rw [e]
        simp [decVal, decStr_encStr s fuel rest (by omega)]
      | num n =>
        have e : encVal (.num n) ++ rest = 'n' :: (encInt n ++ (';' :: rest)) := by
          simp [encVal]
        rw [e]
        simp [decVal, decIntBody_encInt]
      | obj fs =>
        simp only [sizeV] at h
        have e : encVal (.obj fs) ++ rest = 'o' :: (encFields fs ++ rest) := by
          simp [encVal]
        rw [e]
        simp [decVal, ihF fs rest (by omega)]
      | arr is =>
        simp only [sizeV] at h
        have e : encVal (.arr is) ++ rest = 'a' :: (encItems is ++ rest) := by
          simp [encVal]
        rw [e]
        simp [decVal, ihI is rest (by omega)]
    · cases fs with
      | nil =>
        simp [encFields, decFields]
      | cons k v fs =>
        simp only [sizeF] at h
        have e : encFields (.cons k v fs) ++ rest
            = 'f' :: (encStr k ++ (encVal v ++ (encFields fs ++ rest))) := by
          simp [encFields]
        rw [e]
        simp [decFields,
          decStr_encStr k fuel (encVal v ++ (encFields fs ++ rest)) (by omega),
          ihV v (encFields fs ++ rest) (by omega), ihF fs rest (by omega)]
    · cases is with
      | nil =>
        simp [encItems, decItems]
      | cons v is =>
        simp only [sizeI] at h
        have e : encItems (.cons v is) ++ rest
            = 'i' :: (encVal v ++ (encItems is ++ rest)) := by
          simp [encItems]
        rw [e]
        simp [decItems, ihV v (encItems is ++ rest) (by omega), ihI is rest (by omega)]

theorem encChars_length : ∀ cs : List Char, cs.length ≤ (encChars cs).length
  | [] => by simp [encChars]
  | c :: cs => by
    have := encChars_length cs
    simp only [encChars, List.length_cons, List.length_append]
    omega

mutual
theorem sizeV_le_encLength : ∀ v : UIValue, sizeV v ≤ (encVal v).length
  | .str s => by
    have h3 := encChars_length s.data
    simp only [sizeV, encVal, encStr, List.length_cons, List.length_append]
    omega
  | .num n => by simp [sizeV, encVal]
  | .obj fs => by
    have := sizeF_le_encLength fs
    simp only [sizeV, encVal, List.length_cons]
    omega
  | .arr is => by
    have := sizeI_le_encLength is
    simp only [sizeV, encVal, List.length_cons]
    omega
theorem sizeF_le_encLength : ∀ fs : Fields, sizeF fs ≤ (encFields fs).length
  | .nil => by simp [sizeF, encFields]
  | .cons k v fs => by
    have h1 := sizeV_le_encLength v
    have h2 := sizeF_le_encLength fs
    have h3 := encChars_length k.data
    simp only [sizeF, encFields, encStr, List.cons_append, List.append_assoc,
      List.length_cons, List.length_append]
    omega
theorem sizeI_le_encLength : ∀ is : Items, sizeI is ≤ (encItems is).length
  | .nil => by simp [sizeI, encItems]
  | .cons v is => by
    have h1 := sizeV_le_encLength v
    have h2 := sizeI_le_encLength is
    simp only [sizeI, encItems, List.cons_append, List.length_cons, List.length_append]
    omega
end

theorem decodeTop_encVal (fs : Fields) : decodeTop (encVal (.obj fs)) = some fs := by
  have h := (decodeOK ((encVal (.obj fs)).length + 1)).1 (.obj fs) []
    (by have := sizeV_le_encLength (.obj fs); omega)
  rw [List.append_nil] at h
  rw [decodeTop, h]

theorem qsParse_qsStringify (fs : Fields) : qsParse (qsStringify fs) = fs := by
  show (decodeTop (encVal (.obj fs))).getD .nil = fs
  rw [decodeTop_encVal]
  rfl

/-! ## String level glue -/

theorem mem_data_append {c : Char} {s t : String} :
    c ∈ (s ++ t).data ↔ c ∈ s.data ∨ c ∈ t.data := by
  rw [String.data_append, List.mem_append]

theorem jsSlice1_question (s : String) : jsSlice1 ("?" ++ s) = s := by
  have h : ("?" ++ s).data = '?' :: s.data := by
    rw [String.data_append]
    rfl
  rw [jsSlice1, h, List.drop_succ_cons, List.drop_zero, mk_data]

theorem fieldsKeys_eq_nil {fs : Fields} : fieldsKeys fs = [] ↔ fs = .nil := by
  cases fs <;> simp [fieldsKeys]

theorem fieldsKeys_length_eq_zero {fs : Fields} :
    (fieldsKeys fs).length = 0 ↔ fs = .nil := by
  rw [List.length_eq_zero, fieldsKeys_eq_nil]

/-! ## URL safety of the serialization

Every character the encoder emits belongs to `urlQuerySafe`, so the
serialized query never contains '#' or '?' and survives the browser's
address decomposition intact. -/

theorem encNat_safe {n : Nat} {c : Char} (hc : c ∈ encNat n) :
    urlQuerySafe c = true := by
  have := mem_encNat_isDig hc
  simp [urlQuerySafe, this]

theorem encChars_safe : ∀ (cs : List Char), ∀ c ∈ encChars cs, urlQuerySafe c = true
  | [], c, hc => by simp [encChars] at hc
  | x :: cs, c, hc => by
    simp only [encChars, List.mem_append, List.mem_cons] at hc
    rcases hc with hc | hc | hc
    · exact encNat_safe hc
    · subst hc
      decide
    · exact encChars_safe cs c hc

theorem encStr_safe {s : String} {c : Char} (hc : c ∈ encStr s) :
    urlQuerySafe c = true := by
  simp only [encStr, List.mem_append, List.mem_singleton] at hc
  rcases hc with hc | hc
  · exact encChars_safe s.data c hc
  · subst hc
    decide

theorem encInt_safe {n : Int} {c : Char} (hc : c ∈ encInt n) :
    urlQuerySafe c = true := by
  cases n with
  | ofNat m => exact encNat_safe hc
  | negSucc m =>
    simp only [encInt, List.mem_cons] at hc
    rcases hc with hc | hc
    · subst hc
      decide
    · exact encNat_safe hc

mutual
theorem encVal_safe : ∀ (v : UIValue), ∀ c ∈ encVal v, urlQuerySafe c = true
  | .str s, c, hc => by
    simp only [encVal, List.mem_cons] at hc
    rcases hc with hc | hc
    · subst hc
      decide
    · exact encStr_safe hc
  | .num n, c, hc => by
    simp only [encVal, List.mem_cons, List.mem_append, List.mem_singleton,
      List.not_mem_nil, or_false] at hc
    rcases hc with hc | hc | hc
    · subst hc
      decide
    · exact encInt_safe hc
    · subst hc
      decide
  | .obj fs, c, hc => by
    simp only [encVal, List.mem_cons] at hc
    rcases hc with hc | hc
    · subst hc
      decide
    · exact encFields_safe fs c hc
  | .arr is, c, hc => by
    simp only [encVal, List.mem_cons] at hc
    rcases hc with hc | hc
    · subst hc
      decide
    · exact encItems_safe is c hc
theorem encFields_safe : ∀ (fs : Fields), ∀ c ∈ encFields fs, urlQuerySafe c = true
  | .nil, c, hc => by
    simp only [encFields, List.mem_singleton] at hc
    subst hc
    decide
  | .cons k v fs, c, hc => by
    simp only [encFields, List.mem_cons, List.mem_append] at hc
    rcases hc with hc | (hc | hc) | hc
    · subst hc
      decide
    · exact encStr_safe hc
    · exact encVal_safe v c hc
    · exact encFields_safe fs c hc
theorem encItems_safe : ∀ (is : Items), ∀ c ∈ encItems is, urlQuerySafe c = true
  | .nil, c, hc => by
    simp only [encItems, List.mem_singleton] at hc
    subst hc
    decide
  | .cons v is, c, hc => by
    simp only [encItems, List.mem_cons, List.mem_append] at hc
    rcases hc with hc | hc | hc
    · subst hc
      decide
    · exact encVal_safe v c hc
    · exact encItems_safe is c hc
end

theorem qsStringify_no_hash (fs : Fields) :
    ∀ c ∈ (qsStringify fs).data, ¬ c = '#' := fun c hc he => by
  have hs := encVal_safe (.obj fs) c hc
  rw [he] at hs
  exact absurd hs (by decide)

/-! ## The browser address decomposition -/

theorem takeWhile_append_all (p : Char → Bool) :
    ∀ (xs ys : List Char), (∀ x ∈ xs, p x = true) →
      (xs ++ ys).takeWhile p = xs ++ ys.takeWhile p
  | [], ys, _ => by simp
  | x :: xs, ys, h => by
    have hx := h x (by simp)
    have ih := takeWhile_append_all p xs ys (fun y hy => h y (by simp [hy]))
    simp [List.takeWhile_cons, hx, ih]

theorem dropWhile_append_all (p : Char → Bool) :
    ∀ (xs ys : List Char), (∀ x ∈ xs, p x = true) →
      (xs ++ ys).dropWhile p = ys.dropWhile p
  | [], ys, _ => by simp
  | x :: xs, ys, h => by
    have hx := h x (by simp)
    have ih := dropWhile_append_all p xs ys (fun y hy => h y (by simp [hy]))
    simp [List.dropWhile_cons, hx, ih]

theorem dropWhile_all (p : Char → Bool) :
    ∀ (xs : List Char), (∀ x ∈ xs, p x = true) → xs.dropWhile p = []
  | [], _ => by simp
  | x :: xs, h => by
    have hx := h x (by simp)
    have ih := dropWhile_all p xs (fun y hy => h y (by simp [hy]))
    simp [List.dropWhile_cons, hx, ih]

theorem takeWhile_cons_stop (p : Char → Bool) (a : Char) (l : List Char)
    (h : p a = false) : (a :: l).takeWhile p = [] := by
  simp [List.takeWhile_cons, h]

theorem dropWhile_cons_stop (p : Char → Bool) (a : Char) (l : List Char)
    (h : p a = false) : (a :: l).dropWhile p = a :: l := by
  simp [List.dropWhile_cons, h]

theorem takeWhile_cons_go (p : Char → Bool) (a : Char) (l : List Char)
    (h : p a = true) : (a :: l).takeWhile p = a :: l.takeWhile p := by
  simp [List.takeWhile_cons, h]

theorem searchPart_push (pre q hash : List Char)
    (hpre : ∀ c ∈ pre, ¬ c = '?' ∧ ¬ c = '#')
    (hq : ∀ c ∈ q, ¬ c = '#')
    (hhash : hash = [] ∨ hash.head? = some '#') :
    searchPart (pre ++ '?' :: (q ++ hash)) = '?' :: q := by
  have h1 : (pre ++ '?' :: (q ++ hash)).takeWhile (fun c => c ≠ '#')
      = pre ++ '?' :: q := by
    rw [takeWhile_append_all _ pre _ (fun x hx => by simpa using (hpre x hx).2),
      takeWhile_cons_go _ _ _ (by decide),
      takeWhile_append_all _ q _ (fun x hx => by simpa using hq x hx)]
    rcases hhash with h | h
    · subst h
      simp
    · cases hash with
      | nil => simp at h
      | cons a t =>
        simp only [List.head?_cons, Option.some.injEq] at h
        subst h
        rw [takeWhile_cons_stop _ _ _ (by decide)]
        simp
  rw [searchPart, h1,
    dropWhile_append_all _ pre _ (fun x hx => by simpa using (hpre x hx).1),
    dropWhile_cons_stop _ _ _ (by decide)]

theorem searchPart_bare (pre hash : List Char)
    (hpre : ∀ c ∈ pre, ¬ c = '?' ∧ ¬ c = '#')
    (hhash : hash = [] ∨ hash.head? = some '#') :
    searchPart (pre ++ hash) = [] := by
  have h1 : (pre ++ hash).takeWhile (fun c => c ≠ '#') = pre := by
    rw [takeWhile_append_all _ pre _ (fun x hx => by simpa using (hpre x hx).2)]
    rcases hhash with h | h
    · subst h
      simp
    · cases hash with
      | nil => simp at h
      | cons a t =>
        simp only [List.head?_cons, Option.some.injEq] at h
        subst h
        rw [takeWhile_cons_stop _ _ _ (by decide)]
        simp
  rw [searchPart, h1]
  exact dropWhile_all _ pre (fun x hx => by simpa using (hpre x hx).1)

/-! ## Claims about `read`, `createURL` and the serialization -/

/-- Claim C1: parse after stringify is the identity on every supported
UI State shape (nested mappings with string and number leaves, and
arrays).  When the current address is the one `createURL` builds for
`fs`, decomposed as the browser decomposes an address — the fragment
starts at the first '#', the search component at the first '?' before
it (`browserSearch`) — `read()` yields a mapping equal to `fs`.  The
hypotheses say the current location is well formed: no '?' or '#'
occurs in the part of the address before the query position (scheme,
host, port, path), and the fragment is empty or begins with '#'.  The
serialized query itself contains neither '#' nor '?' (`encVal_safe`),
so the decomposition recovers it whole; the first conjunct records that
the world model's post-push location (`createURLLoc`) carries exactly
the search component the browser would derive from the pushed address
string. -/
theorem claim1_parse_after_build_identity (loc : Location) (fs : Fields)
    (hpre : ∀ c ∈ (loc.protocol ++ "//" ++ loc.hostname ++
        (if loc.port = "" then "" else ":" ++ loc.port) ++ loc.pathname).data,
      ¬ c = '?' ∧ ¬ c = '#')
    (hhash : loc.hash = "" ∨ loc.hash.data.head? = some '#') :
    (createURLLoc loc (some fs)).search
        = browserSearch (ModernURL.createURL loc (some fs)) ∧
    ModernURL.read
        { loc with search := browserSearch (ModernURL.createURL loc (some fs)) }
      = fs := by
  have hhash2 : loc.hash.data = [] ∨ loc.hash.data.head? = some '#' := by
    rcases hhash with h | h
    · left
      rw [h]
    · right
      exact h
  by_cases hfs : fs = Fields.nil
  · subst hfs
    have hurl : ModernURL.createURL loc (some Fields.nil)
        = (loc.protocol ++ "//" ++ loc.hostname ++
            (if loc.port = "" then "" else ":" ++ loc.port) ++ loc.pathname)
          ++ loc.hash := by
      simp [ModernURL.createURL, fieldsKeys]
    have hsearch : browserSearch (ModernURL.createURL loc (some Fields.nil)) = "" := by
      rw [browserSearch, hurl, String.data_append, searchPart_bare _ _ hpre hhash2]
    constructor
    · rw [hsearch]
      simp [createURLLoc, fieldsKeys]
    · rw [hsearch]
      rfl
  · have hlen : ¬ (fieldsKeys fs).length = 0 := by
      rw [fieldsKeys_length_eq_zero]
      exact hfs
    have hurl : ModernURL.createURL loc (some fs)
        = (loc.protocol ++ "//" ++ loc.hostname ++
            (if loc.port = "" then "" else ":" ++ loc.port) ++ loc.pathname)
          ++ "?" ++ qsStringify fs ++ loc.hash := by
      simp [ModernURL.createURL, hlen, qsStringifyOpt]
    have hqmark : ("?" : String).data = ['?'] := rfl
    have hsdata : (ModernURL.createURL loc (some fs)).data
        = (loc.protocol ++ "//" ++ loc.hostname ++
            (if loc.port = "" then "" else ":" ++ loc.port) ++ loc.pathname).data
          ++ '?' :: ((qsStringify fs).data ++ loc.hash.data) := by
      rw [hurl]
      simp [String.data_append, hqmark]
    have hsearch : browserSearch (ModernURL.createURL loc (some fs))
        = String.mk ('?' :: (qsStringify fs).data) := by
      rw [browserSearch, hsdata,
        searchPart_push _ _ _ hpre (qsStringify_no_hash fs) hhash2]
    have hs2 : String.mk ('?' :: (qsStringify fs).data) = "?" ++ qsStringify fs := by
      have hd : ("?" ++ qsStringify fs).data = '?' :: (qsStringify fs).data := by
        rw [String.data_append]
        rfl
      rw [← hd, mk_data]
    constructor
    · rw [hsearch, hs2]
      simp [createURLLoc, hlen, qsStringifyOpt]
    · rw [hsearch, hs2]
      simp [ModernURL.read, jsSlice1_question, qsParse_qsStringify]

/-- Claim C5: for the empty state, `createURL` produces an address with
no query component — scheme, host, optional port, path and fragment
preserved, and no question mark anywhere (when none of the preserved
components contains one) — while for every non-empty state the query
component is exactly the serialization of the state. -/
theorem claim5_empty_state_no_query (loc : Location) (fs : Fields) :
    (fieldsKeys fs = [] →
      ModernURL.createURL loc (some fs)
        = loc.protocol ++ "//" ++ loc.hostname ++
            (if loc.port = "" then "" else ":" ++ loc.port) ++
            loc.pathname ++ loc.hash) ∧
    (fieldsKeys fs ≠ [] →
      ModernURL.createURL loc (some fs)
        = loc.protocol ++ "//" ++ loc.hostname ++
            (if loc.port = "" then "" else ":" ++ loc.port) ++
            loc.pathname ++ "?" ++ qsStringify fs ++ loc.hash) ∧
    (fieldsKeys fs = [] →
      '?' ∉ loc.protocol.data → '?' ∉ loc.hostname.data → '?' ∉ loc.port.data →
      '?' ∉ loc.pathname.data → '?' ∉ loc.hash.data →
      '?' ∉ (ModernURL.createURL loc (some fs)).data) := by
  refine ⟨fun h => ?_, fun h => ?_, fun h h1 h2 h3 h4 h5 => ?_⟩
  · have h0 : (fieldsKeys fs).length = 0 := by rw [h]; rfl
    simp [ModernURL.createURL, h0]
  · have h0 : ¬ (fieldsKeys fs).length = 0 := by
      simp [List.length_eq_zero, h]
    simp [ModernURL.createURL, h0, qsStringifyOpt]
  · have h0 : (fieldsKeys fs).length = 0 := by rw [h]; rfl
    have hsl : '?' ∉ ("//" : String).data := by decide
    have hco : '?' ∉ (":" : String).data := by decide
    have hem : '?' ∉ ("" : String).data := by decide
    by_cases hp : loc.port = "" <;>
      simp [ModernURL.createURL, h0, hp, mem_data_append, h1, h2, h3, h4, h5, hsl,
        hco, hem]

/-- Claim C8: `read()` is a total function with silent degradation — an
absent or empty query component, and any unparseable one, yields the
empty mapping rather than an error. -/
theorem claim8_read_silent_degradation (loc : Location) :
    (loc.search = "" ∨ loc.search = "?" → ModernURL.read loc = Fields.nil) ∧
    (decodeTop (jsSlice1 loc.search).data = none → ModernURL.read loc = Fields.nil) := by
  constructor
  · rintro (h | h) <;> rw [ModernURL.read, h] <;> rfl
  · intro h
    rw [ModernURL.read, qsParse, h]
    rfl

/-- Claim C10: `createURL` is total on an absent state: the falsy-state
guard short-circuits before `Object.keys` is reached, so the
instrumented evaluation never raises (it agrees with the pure function
on every input), and with no argument it returns the bare address with
no query component. -/
theorem claim10_createURL_total_absent (loc : Location) (uiState : Option Fields) :
    ModernURL.createURLE loc uiState = .ok (ModernURL.createURL loc uiState) ∧
    ModernURL.createURL loc none = renderLocation { loc with search := "" } := by
  constructor
  · cases uiState with
    | none => rfl
    | some fs =>
      by_cases h : (fieldsKeys fs).length = 0 <;>
        simp [ModernURL.createURLE, ModernURL.createURL, objectKeysE, h, pure,
          Except.pure, Bind.bind, Except.bind]
  · simp [ModernURL.createURL, renderLocation]

/-! ## The write timer and its invariant -/

theorem clearedTimers_nil (w : World) (hInv : TimerInv w) : clearedTimers w = [] := by
  obtain ⟨-, hsome, hnone⟩ := hInv
  cases h : w.writeTimer with
  | none =>
    simp only [clearedTimers, h]
    exact hnone h
  | some id =>
    obtain ⟨p, hp⟩ := hsome id h
    simp [clearedTimers, h, hp]

theorem clearedTimers_set_location (w : World) (l : Location) :
    clearedTimers { w with location := l } = clearedTimers w := by
  cases h : w.writeTimer <;> simp [clearedTimers, h]

theorem write_TimerInv (w : World) (s : Option Fields)
    (hc : clearedTimers w = []) : TimerInv (ModernURL.write w s) := by
  refine ⟨fun t ht => ?_, fun id hid => ?_, fun hn => ?_⟩
  · simp [ModernURL.write, hc] at ht
    simp [ModernURL.write, ht]
  · simp only [ModernURL.write, Option.some.injEq] at hid
    exact ⟨pendingFor w s, by simp [ModernURL.write, hc, hid]⟩
  · simp [ModernURL.write] at hn

theorem handlePopState_TimerInv (w : World) (es : Option Fields)
    (hc : clearedTimers w = []) : TimerInv (handlePopState w es) := by
  refine ⟨fun t ht => ?_, fun id hid => ?_, fun _ => ?_⟩
  · cases es <;> simp [handlePopState, hc] at ht
  · cases es <;> simp [handlePopState] at hid
  · cases es <;> simp [handlePopState, hc]

/-- Claim C4: the single-pending-write invariant is preserved by every
operation — application writes, timer firing, popstate navigation,
subscription and disposal: at most one registered write timer exists at
any time, the instance's `writeTimer` field names exactly it, and
scheduling a new write first clears any existing one. -/
theorem claim4_single_pending_timer (w : World) (e : Event) (hInv : TimerInv w) :
    TimerInv (step w e) := by
  obtain ⟨hlt, hsome, hnone⟩ := hInv
  cases e with
  | write s =>
    exact write_TimerInv w (some s) (clearedTimers_nil w ⟨hlt, hsome, hnone⟩)
  | fire id =>
    cases hf : w.activeTimers.find? (fun t => t.1 = id) with
    | none =>
      rw [step, fireTimer, hf]
      exact ⟨hlt, hsome, hnone⟩
    | some tp =>
      rw [step, fireTimer, hf]
      have hat : ∃ p, w.activeTimers = [(id, p)] := by
        cases h : w.writeTimer with
        | none =>
          rw [hnone h] at hf
          simp [List.find?] at hf
        | some id0 =>
          obtain ⟨p, hp⟩ := hsome id0 h
          rw [hp] at hf
          by_cases hi : id0 = id
          · exact ⟨p, by rw [hp, hi]⟩
          · simp [List.find?, hi] at hf
      obtain ⟨p, hp⟩ := hat
      refine ⟨fun t ht => ?_, fun id2 hid2 => ?_, fun _ => ?_⟩
      · simp [hp] at ht
      · simp at hid2
      · simp [hp]
  | popstate newLoc payload =>
    rw [step, popstateEvent]
    by_cases hreg : w.listenerRegistered
    · rw [if_pos hreg]
      refine handlePopState_TimerInv _ payload ?_
      rw [clearedTimers_set_location]
      exact clearedTimers_nil w ⟨hlt, hsome, hnone⟩
    · rw [if_neg hreg]
      exact ⟨hlt, hsome, hnone⟩
  | subscribe =>
    exact ⟨hlt, hsome, hnone⟩
  | dispose =>
    rw [step, ModernURL.dispose]
    refine write_TimerInv _ none ?_
    cases h : w.writeTimer with
    | none => simp [clearedTimers, h, hnone h]
    | some id =>
      obtain ⟨p, hp⟩ := hsome id h
      simp [clearedTimers, h, hp]

/-- An initial world: fresh browser state, one freshly constructed
synchronizer with the default options. -/
def world0 (loc : Location) : World :=
  ⟨loc, [], "", [], 1, false, [], none, none, 400⟩

/-- A sample location. -/
def loc0 : Location := ⟨"https:", "example.com", "", "/search", "", "#top"⟩

/-- A sample non-empty UI state. -/
def fs0 : Fields := .cons "q" (.str "x") .nil

theorem claim4_witness :
    TimerInv (world0 loc0) ∧
    TimerInv (step (world0 loc0) (.write fs0)) := by
  have h : TimerInv (world0 loc0) := by
    refine ⟨fun t ht => ?_, fun id hid => ?_, fun _ => rfl⟩
    · simp [world0] at ht
    · simp [world0] at hid
  exact ⟨h, claim4_single_pending_timer (world0 loc0) (.write fs0) h⟩

/-! ## Temporal claims: debounce, cancellation, fallback -/

theorem write_eq_of_cleared (w : World) (s : Option Fields)
    (hc : clearedTimers w = []) :
    ModernURL.write w s
      = { w with
            activeTimers := [(w.nextTimerId, pendingFor w s)],
            nextTimerId := w.nextTimerId + 1,
            writeTimer := some w.nextTimerId } := by
  rw [ModernURL.write, hc]
  simp

theorem clearedTimers_write (w : World) (s : Option Fields)
    (hc : clearedTimers w = []) :
    clearedTimers (ModernURL.write w s) = [] := by
  rw [ModernURL.write, hc]
  simp [clearedTimers]

/-- Claim C2: debounce coalescing.  After `write a` immediately followed
by `write b` (no timer fired in between), exactly one pending write is
registered and it carries `b`; firing it pushes exactly one history
entry, with payload `b`; firing the id that `write a` had allocated does
nothing; and whatever timer id the environment fires, the history either
stays unchanged or gains exactly the entry for `b` — the entry for `a`
is never pushed. -/
theorem claim2_debounce_coalescing (w : World) (a b : Fields) (hInv : TimerInv w) :
    (run w [.write a, .write b]).activeTimers
      = [(w.nextTimerId + 1, pendingFor w (some b))] ∧
    (step (run w [.write a, .write b]) (.fire (w.nextTimerId + 1))).historyStack
      = w.historyStack
        ++ [⟨some b, (w.titleFromUIState.map (fun f => f (some b))).getD "",
              ModernURL.createURL w.location (some b)⟩] ∧
    (step (run w [.write a, .write b]) (.fire w.nextTimerId)).historyStack
      = w.historyStack ∧
    (∀ id, (step (run w [.write a, .write b]) (.fire id)).historyStack
        = w.historyStack ∨
      (step (run w [.write a, .write b]) (.fire id)).historyStack
        = w.historyStack
          ++ [⟨some b, (w.titleFromUIState.map (fun f => f (some b))).getD "",
                ModernURL.createURL w.location (some b)⟩]) := by
  have hc : clearedTimers w = [] := clearedTimers_nil w hInv
  have e1 := write_eq_of_cleared w (some a) hc
  have hc1 := clearedTimers_write w (some a) hc
  have h2 : run w [.write a, .write b]
      = { w with
            activeTimers := [(w.nextTimerId + 1, pendingFor w (some b))],
            nextTimerId := w.nextTimerId + 1 + 1,
            writeTimer := some (w.nextTimerId + 1) } := by
    simp only [run, List.foldl_cons, List.foldl_nil, step]
    rw [write_eq_of_cleared _ (some b) hc1, e1]
    simp [pendingFor]
  have hne : w.nextTimerId + 1 ≠ w.nextTimerId := by omega
  refine ⟨by rw [h2], ?_, ?_, ?_⟩
  · rw [h2]
    simp [step, fireTimer, List.find?, pendingFor]
  · rw [h2]
    simp [step, fireTimer, List.find?, hne]
  · intro id
    by_cases hid : w.nextTimerId + 1 = id
    · right
      rw [h2]
      simp [step, fireTimer, List.find?, hid, pendingFor]
    · left
      rw [h2]
      simp [step, fireTimer, List.find?, hid]

/-- Claim C3: cancellation on navigate.  After `write a` is scheduled
but not yet fired, a navigation event carrying payload `b` cancels the
pending write — the registered callback is invoked with `b` directly,
no history entry was pushed, no timer remains registered, and firing
any timer id afterwards leaves the history unchanged, so no push for
`a` ever occurs. -/
theorem claim3_cancel_on_navigate (w : World) (a b : Fields) (newLoc : Location)
    (hInv : TimerInv w) (hreg : w.listenerRegistered = true) :
    (run w [.write a, .popstate newLoc (some b)]).cbCalls = w.cbCalls ++ [b] ∧
    (run w [.write a, .popstate newLoc (some b)]).historyStack = w.historyStack ∧
    (run w [.write a, .popstate newLoc (some b)]).writeTimer = none ∧
    (run w [.write a, .popstate newLoc (some b)]).activeTimers = [] ∧
    (∀ id, (step (run w [.write a, .popstate newLoc (some b)]) (.fire id)).historyStack
        = w.historyStack) := by
  have hc : clearedTimers w = [] := clearedTimers_nil w hInv
  have e1 := write_eq_of_cleared w (some a) hc
  have h2 : run w [.write a, .popstate newLoc (some b)]
      = { w with
            location := newLoc,
            activeTimers := [],
            nextTimerId := w.nextTimerId + 1,
            writeTimer := none,
            cbCalls := w.cbCalls ++ [b] } := by
    simp only [run, List.foldl_cons, List.foldl_nil, step]
    rw [e1]
    simp [popstateEvent, hreg, handlePopState, clearedTimers]
  refine ⟨by rw [h2], by rw [h2], by rw [h2], by rw [h2], ?_⟩
  intro id
  rw [h2]
  simp [step, fireTimer, List.find?]

/-- Claim C6: fallback on stateless navigation.  A navigation event that
carries no state payload invokes the registered callback with the
result of `read()` evaluated at that moment — on the address the
browser has just navigated to. -/
theorem claim6_stateless_navigation_fallback (w : World) (newLoc : Location)
    (hreg : w.listenerRegistered = true) :
    (step w (.popstate newLoc none)).cbCalls
      = w.cbCalls ++ [ModernURL.read newLoc] := by
  simp [step, popstateEvent, hreg, handlePopState]

/-! ## Dispose and title claims -/

theorem navEvents_preserve_cbCalls :
    ∀ (es : List Event) (w : World),
      w.listenerRegistered = false → (∀ e ∈ es, NavEvent e) →
      (run w es).cbCalls = w.cbCalls ∧ (run w es).listenerRegistered = false
  | [], w, h, _ => ⟨rfl, h⟩
  | e :: es, w, h, hes => by
    have hstep : (step w e).cbCalls = w.cbCalls ∧ (step w e).listenerRegistered = false := by
      cases e with
      | fire id =>
        cases hf : w.activeTimers.find? (fun t => t.1 = id) <;>
          simp [step, fireTimer, hf, h]
      | popstate l p => simp [step, popstateEvent, h]
      | write s =>
        exact absurd (hes (Event.write s) (List.mem_cons_self _ _)) (fun hx => hx)
      | subscribe =>
        exact absurd (hes Event.subscribe (List.mem_cons_self _ _)) (fun hx => hx)
      | dispose =>
        exact absurd (hes Event.dispose (List.mem_cons_self _ _)) (fun hx => hx)
    have ih := navEvents_preserve_cbCalls es (step w e) hstep.2
      (fun e2 he2 => hes e2 (by simp [he2]))
    have hrun : run w (e :: es) = run (step w e) es := by
      simp [run]
    rw [hrun]
    exact ⟨ih.1.trans hstep.1, ih.2⟩

theorem clearedTimers_dispose_pre (w : World) (hInv : TimerInv w) :
    clearedTimers
      { w with listenerRegistered := false, activeTimers := clearedTimers w } = [] := by
  obtain ⟨-, hsome, hnone⟩ := hInv
  cases h : w.writeTimer with
  | none => simp [clearedTimers, h, hnone h]
  | some id =>
    obtain ⟨p, hp⟩ := hsome id h
    simp [clearedTimers, h, hp]

/-- Claim C7: `dispose()` removes the navigation listener, cancels any
pending write and schedules a final write with no state, so that when
that write fires the address's query component is removed (path and
fragment preserved), and no navigation event delivered afterwards ever
invokes the registered callback again. -/
theorem claim7_dispose_clears (w : World) (hInv : TimerInv w) :
    (step w .dispose).listenerRegistered = false ∧
    (step w .dispose).writeTimer = some w.nextTimerId ∧
    (step w .dispose).activeTimers = [(w.nextTimerId, pendingFor w none)] ∧
    (run w [.dispose, .fire w.nextTimerId]).location.search = "" ∧
    (run w [.dispose, .fire w.nextTimerId]).location.pathname = w.location.pathname ∧
    (run w [.dispose, .fire w.nextTimerId]).location.hash = w.location.hash ∧
    (run w [.dispose, .fire w.nextTimerId]).activeTimers = [] ∧
    (∀ es, (∀ e ∈ es, NavEvent e) →
      (run (run w [.dispose, .fire w.nextTimerId]) es).cbCalls
        = (run w [.dispose, .fire w.nextTimerId]).cbCalls) := by
  have hc : clearedTimers w = [] := clearedTimers_nil w hInv
  have hcd := clearedTimers_dispose_pre w hInv
  have e3 : step w .dispose
      = { w with
            listenerRegistered := false,
            activeTimers := [(w.nextTimerId, pendingFor w none)],
            nextTimerId := w.nextTimerId + 1,
            writeTimer := some w.nextTimerId } := by
    show ModernURL.dispose w = _
    rw [ModernURL.dispose, write_eq_of_cleared _ none hcd, hc]
    simp [pendingFor]
  have hrun : run w [.dispose, .fire w.nextTimerId]
      = step (step w .dispose) (.fire w.nextTimerId) := by
    simp [run]
  have hfire : step (step w .dispose) (.fire w.nextTimerId)
      = { w with
            listenerRegistered := false,
            activeTimers := [],
            nextTimerId := w.nextTimerId + 1,
            writeTimer := none,
            docTitle :=
              if titleTruthy (pendingFor w none).title
              then (pendingFor w none).title.getD "" else w.docTitle,
            historyStack :=
              w.historyStack
                ++ [⟨none, (pendingFor w none).title.getD "", (pendingFor w none).url⟩],
            location := createURLLoc w.location none } := by
    rw [e3]
    simp [step, fireTimer, List.find?, pendingFor]
  refine ⟨by rw [e3], by rw [e3], by rw [e3], ?_, ?_, ?_, ?_, ?_⟩
  · rw [hrun, hfire]
    simp [createURLLoc]
  · rw [hrun, hfire]
    simp [createURLLoc]
  · rw [hrun, hfire]
    simp [createURLLoc]
  · rw [hrun, hfire]
  · intro es hes
    have hlreg : (run w [.dispose, .fire w.nextTimerId]).listenerRegistered = false := by
      rw [hrun, hfire]
    exact (navEvents_preserve_cbCalls es _ hlreg hes).1

/-- Claim C9: when a title transform is configured and returns a
non-empty string for state `s`, a fired `write s` sets the document
title to that string, and the pushed history entry carries exactly that
title — one entry, one title application per fired write. -/
theorem claim9_title_application (w : World) (s : Fields) (f : Option Fields → String)
    (hInv : TimerInv w) (hf : w.titleFromUIState = some f) (ht : ¬ f (some s) = "") :
    (run w [.write s, .fire w.nextTimerId]).docTitle = f (some s) ∧
    (run w [.write s, .fire w.nextTimerId]).historyStack
      = w.historyStack
        ++ [⟨some s, f (some s), ModernURL.createURL w.location (some s)⟩] := by
  have hc := clearedTimers_nil w hInv
  have e1 := write_eq_of_cleared w (some s) hc
  have hrun : run w [.write s, .fire w.nextTimerId]
      = step (step w (.write s)) (.fire w.nextTimerId) := by
    simp [run]
  have hstep : step w (.write s) = ModernURL.write w (some s) := rfl
  rw [hrun, hstep, e1]
  constructor <;>
    simp [step, fireTimer, List.find?, pendingFor, hf, titleTruthy, ht]

/-! ## Witness worlds -/

/-- A world whose synchronizer has already registered its popstate
listener through `onUpdate`. -/
def worldR (loc : Location) : World := ⟨loc, [], "", [], 1, true, [], none, none, 400⟩

/-- A sample title transform. -/
def title0 : Option Fields → String := fun _ => "Results"

/-- A world whose synchronizer was constructed with a title transform. -/
def worldT (loc : Location) : World :=
  ⟨loc, [], "", [], 1, false, [], none, some title0, 400⟩

/-- A second sample state. -/
def fs1 : Fields := .cons "page" (.num 2) .nil

theorem TimerInv_mk (w : World) (h1 : w.activeTimers = [])
    (h2 : w.writeTimer = none) : TimerInv w := by
  refine ⟨fun t ht => ?_, fun id hid => ?_, fun _ => h1⟩
  · rw [h1] at ht
    exact absurd ht (by simp)
  · rw [h2] at hid
    exact absurd hid (by simp)

theorem claim2_witness :
    (step (run (world0 loc0) [.write fs0, .write fs1]) (.fire 2)).historyStack
      = [⟨some fs1, "", ModernURL.createURL loc0 (some fs1)⟩] := by
  have h := (claim2_debounce_coalescing (world0 loc0) fs0 fs1
    (TimerInv_mk _ rfl rfl)).2.1
  simpa [world0] using h

theorem claim3_witness :
    (run (worldR loc0) [.write fs0, .popstate loc0 (some fs1)]).cbCalls = [fs1] ∧
    (run (worldR loc0) [.write fs0, .popstate loc0 (some fs1)]).historyStack = [] := by
  have h := claim3_cancel_on_navigate (worldR loc0) fs0 fs1 loc0
    (TimerInv_mk _ rfl rfl) rfl
  exact ⟨by simpa [worldR] using h.1, by simpa [worldR] using h.2.1⟩

theorem claim6_witness :
    (step (worldR loc0) (.popstate loc0 none)).cbCalls = [ModernURL.read loc0] := by
  simpa [worldR] using claim6_stateless_navigation_fallback (worldR loc0) loc0 rfl

theorem claim7_witness :
    (step (worldR loc0) .dispose).listenerRegistered = false ∧
    (run (worldR loc0) [.dispose, .fire 1]).location.search = "" := by
  have h := claim7_dispose_clears (worldR loc0) (TimerInv_mk _ rfl rfl)
  exact ⟨h.1, by simpa [worldR] using h.2.2.2.1⟩

theorem claim9_witness :
    (run (worldT loc0) [.write fs0, .fire 1]).docTitle = "Results" ∧
    (run (worldT loc0) [.write fs0, .fire 1]).historyStack
      = [⟨some fs0, "Results", ModernURL.createURL loc0 (some fs0)⟩] := by
  have h := claim9_title_application (worldT loc0) fs0 title0
    (TimerInv_mk _ rfl rfl) rfl (by decide)
  exact ⟨by simpa [worldT, title0] using h.1,
    by simpa [worldT, title0] using h.2⟩

theorem claim5_witness :
    ModernURL.createURL loc0 (some Fields.nil) = "https://example.com/search#top" ∧
    ModernURL.createURL loc0 (some fs0)
      = "https://example.com/search?" ++ qsStringify fs0 ++ "#top" ∧
    '?' ∉ (ModernURL.createURL loc0 (some Fields.nil)).data := by
  have h := claim5_empty_state_no_query loc0 Fields.nil
  have h2 := claim5_empty_state_no_query loc0 fs0
  refine ⟨?_, ?_, ?_⟩
  · rw [h.1 rfl]
    rfl
  · rw [h2.2.1 (by simp [fs0, fieldsKeys])]
    rfl
  · exact h.2.2 rfl (by decide) (by decide) (by decide) (by decide) (by decide)

theorem claim1_witness :
    (createURLLoc loc0 (some fs0)).search
        = browserSearch (ModernURL.createURL loc0 (some fs0)) ∧
    ModernURL.read
        { loc0 with search := browserSearch (ModernURL.createURL loc0 (some fs0)) }
      = fs0 :=
  claim1_parse_after_build_identity loc0 fs0 (by decide) (Or.inr (by decide))

theorem claim8_witness :
    ModernURL.read loc0 = Fields.nil ∧
    ModernURL.read ⟨"https:", "example.com", "", "/search", "?payload", "#top"⟩
      = Fields.nil := by
  have h1 := claim8_read_silent_degradation loc0
  have h2 := claim8_read_silent_degradation
    ⟨"https:", "example.com", "", "/search", "?payload", "#top"⟩
  exact ⟨h1.1 (Or.inl rfl), h2.2 rfl⟩

end URLSync
